import Mathlib

/-!
Shallow embedding of `src/Cells.js` (CellsJS).

The module exports `Cells`, `sortColumn`, `getColumnTitles`, `getData` and
`changeColumnOrdering`.  JavaScript objects are embedded as association lists
in `Object.keys` order, arrays as lists, and thrown errors as `Except`.
-/

namespace CellsJS

/-! ## Values and objects -/

/-- JavaScript values held in records and defaults.  Numbers are the integers,
the negative zero `negZero` (`num 0` is the positive zero) and `nan`; `ref` is a
reference to a heap object (array, function, object), which `===` compares by
identity. -/
inductive Val
  | undefined
  | null
  | bool (b : Bool)
  | num (n : Int)
  | negZero
  | nan
  | str (s : String)
  | ref (id : Nat)
  deriving DecidableEq

/-- JavaScript truthiness, as used by the unary `!` operator. -/
def truthy : Val → Bool
  | .undefined => false
  | .null => false
  | .bool b => b
  | .num n => decide (n ≠ 0)
  | .negZero => false
  | .nan => false
  | .str s => decide (s ≠ "")
  | .ref _ => true

/-- The strict equality operator `===` on values: `NaN` is not equal to itself, and
the two zeros are equal to each other. -/
def strictEq (a b : Val) : Bool :=
  match a, b with
  | .nan, _ => false
  | _, .nan => false
  | .negZero, .num n => decide (n = 0)
  | .num n, .negZero => decide (n = 0)
  | x, y => decide (x = y)

/-- A plain JavaScript object: its own enumerable string-keyed properties, listed in
`Object.keys` order. -/
abbrev Obj := List (String × Val)

/-- `Object.keys(o)`. -/
def Obj.keys (o : Obj) : List String := o.map Prod.fst

/-- Property read `o[k]`: the own property, `undefined` when `k` is not an own key.
Inherited properties of `Object.prototype` are left out: the only read of a key that
may not be an own key is `defaults[key]` on source line 95, for a record key that is
no column; whatever it yields is not `null`, and the value then written under that
key is never read into a row. -/
def Obj.get : Obj → String → Val
  | [], _ => Val.undefined
  | (k', v) :: o, k => if k' = k then v else Obj.get o k

/-- Value of a decimal digit character. -/
def digitVal? (c : Char) : Option Nat :=
  if 48 ≤ c.toNat ∧ c.toNat ≤ 57 then some (c.toNat - 48) else none

/-- Reads a list of decimal digits, most significant first. -/
def parseDigits : List Char → Nat → Option Nat
  | [], acc => some acc
  | c :: cs, acc =>
    match digitVal? c with
    | some d => parseDigits cs (10 * acc + d)
    | none => none

/-- The array index denoted by a property key, when the key is a canonical numeric
string below `2^32 - 1`.  Such keys are enumerated first, in ascending order. -/
def arrayIndex? (k : String) : Option Nat :=
  match k.data with
  | [] => none
  | [c] => digitVal? c
  | c :: cs =>
    if c = '0' then none
    else match parseDigits (c :: cs) 0 with
      | some n => if n < 4294967295 then some n else none
      | none => none

/-- Places a new array-index key `k` (index `n`) among the keys of `o`: after the
index keys below `n`, before everything else. -/
def Obj.insertIndex : Obj → String → Nat → Val → Obj
  | [], k, _, v => [(k, v)]
  | (k', v') :: o, k, n, v =>
    match arrayIndex? k' with
    | some m => if m < n then (k', v') :: Obj.insertIndex o k n v else (k, v) :: (k', v') :: o
    | none => (k, v) :: (k', v') :: o

/-- Defining property `k` with value `v`, as done by `o[k] = v` on an own data
property and by the object literal `{...o, [k]: v}`: an existing key keeps its
place, a new array-index key is placed by `insertIndex`, any other new key goes
last. -/
def Obj.set (o : Obj) (k : String) (v : Val) : Obj :=
  if k ∈ o.keys then o.map (fun p => (p.1, if p.1 = k then v else p.2))
  else match arrayIndex? k with
    | some n => Obj.insertIndex o k n v
    | none => o ++ [(k, v)]

/-- A JavaScript array seen as an object: own keys `"0"`, ..., `"n-1"` holding the
elements. -/
def arrayAsObj (row : List Val) : Obj :=
  row.enum.map (fun p => (toString p.1, p.2))

/-- Whether key `k` may precede key `k'` in `Object.keys` order: an array-index key
precedes larger array-index keys and every other key; another key precedes only keys
that are not array indices. -/
def keyBefore (k k' : String) : Bool :=
  match arrayIndex? k, arrayIndex? k' with
  | some n, some m => decide (n < m)
  | some _, none => true
  | none, some _ => false
  | none, none => true

/-- Key order of a real object: distinct keys, array-index keys first in ascending
order, then the remaining keys. -/
def Obj.ordered : Obj → Bool
  | [] => true
  | (k, _) :: o => o.all (fun p => decide (p.1 ≠ k) && keyBefore k p.1) && Obj.ordered o

/-! ## The matrix -/

/-- A column header object `{title, defaultValue}`. -/
structure Header where
  title : String
  defaultValue : Val
  deriving DecidableEq

/-- The array `[header, ...rows]` built by `Cells`: its first element is the header
row, the remaining elements are the data rows. -/
structure Matrix where
  header : List Header
  rows : List (List Val)
  deriving DecidableEq

/-- Number of elements of the array `[header, ...rows]`. -/
def Matrix.size (m : Matrix) : Nat := 1 + m.rows.length

/-- The errors thrown by the module, one constructor per `throw` site. -/
inductive CellsError
  | orderIsString
  | titleNotInDefaults (columnTitle : String)
  | extraKeys (keys : List String)
  | functNotFunction
  | colIndexOutOfBounds
  deriving DecidableEq

deriving instance DecidableEq for Except

/-- The `order` argument of `Cells`: `undefined`, a string, a comparator function on
column titles, or an array of column titles. -/
inductive Order
  | absent
  | string (s : String)
  | funct (compareFn : String → String → Int)
  | list (titles : List String)

/-- `Array.prototype.sort(compareFn)` as a stable insertion sort: `a` stays in front
of `b` when `compareFn(a, b) <= 0`.  For a consistent comparator this is the
order ECMAScript prescribes; for any other comparator the language leaves the order
to the engine and this is one such order.  The comparator that `sortColumn` hands to
the sort answers `-1` both ways for two rows whose values tie, so for such rows the
order computed here is this sort's own; that the result is a permutation of the input
holds for every engine. -/
def jsSort {α : Type} (compareFn : α → α → Int) (xs : List α) : List α :=
  xs.insertionSort (fun a b => compareFn a b ≤ 0)

/-- `Array.prototype.sort(compareFn)` on values: `undefined` entries go last without
being compared. -/
def jsSortVals (compareFn : Val → Val → Int) (xs : List Val) : List Val :=
  jsSort compareFn (xs.filter (fun v => decide (v ≠ Val.undefined)))
    ++ xs.filter (fun v => decide (v = Val.undefined))

/-! ## `Cells` -/

/-- Source line 26: `(list, element) => !list.filter(e => e === element)[0]`. -/
def notInList (list : List String) (element : String) : Bool :=
  match list.filter (fun e => decide (e = element)) with
  | [] => !truthy Val.undefined
  | e :: _ => !truthy (Val.str e)

/-- Source lines 28-30: `refList.reduce((a, c) => notInList(list, c) ? [...a, c] : a, [])`. -/
def elementsNotInRefList (list refList : List String) : List String :=
  refList.foldl (fun a c => if notInList list c then a ++ [c] else a) []

/-- Source lines 42-52: the `order.forEach` loop, which throws at the first column
title that `notInList` reports missing from `defaultKeys` and otherwise appends the
title to `keysSorted`. -/
def orderForEach (defaultKeys : List String) :
    List String → List String → Except CellsError (List String)
  | [], keysSorted => .ok keysSorted
  | columnTitle :: rest, keysSorted =>
    if notInList defaultKeys columnTitle then .error (.titleNotInDefaults columnTitle)
    else orderForEach defaultKeys rest (keysSorted ++ [columnTitle])

/-- Source lines 57-61: the `defaultKeys.forEach` loop filling `keysSorted`. -/
def fillKeys (defaultKeys keysSorted : List String) : List String :=
  defaultKeys.foldl (fun ks key => if notInList ks key then ks ++ [key] else ks) keysSorted

/-- Source lines 22-65: the resolved column order `sortedDefaultKeys`.  The string
check of line 22 comes first. -/
def sortedDefaultKeys (defaults : Obj) : Order → Except CellsError (List String)
  | .string _ => .error .orderIsString
  | .absent => .ok defaults.keys
  | .funct compareFn => .ok (jsSort compareFn defaults.keys)
  | .list order =>
    match orderForEach defaults.keys order [] with
    | .error e => .error e
    | .ok keysSorted =>
      if keysSorted.length < defaults.keys.length then .ok (fillKeys defaults.keys keysSorted)
      else .ok keysSorted

/-- Source lines 88-90: `data = {...data, [key]: defaults[key]}` for each key. -/
def fillDefaults (defaults : Obj) (defaultsNotInData : List String) (data : Obj) : Obj :=
  defaultsNotInData.foldl (fun d key => d.set key (defaults.get key)) data

/-- Source lines 93-98: a `null` under a key whose default is not `null` is replaced
by the default. -/
def coerceNulls (defaults : Obj) (dataKeys : List String) (data : Obj) : Obj :=
  dataKeys.foldl (fun d key =>
    if d.get key = Val.null ∧ defaults.get key ≠ Val.null then d.set key (defaults.get key)
    else d) data

/-- Source lines 76-102: the row built from one element of `dataList`, or the
extra-keys error. -/
def buildRow (defaults : Obj) (cols : List String) (data : Obj) :
    Except CellsError (List Val) :=
  let dataKeys := data.keys
  if dataKeys.length > cols.length then
    .error (.extraKeys (elementsNotInRefList cols dataKeys))
  else
    let defaultsNotInData := elementsNotInRefList dataKeys cols
    let data1 := fillDefaults defaults defaultsNotInData data
    let data2 := coerceNulls defaults dataKeys data1
    .ok (cols.foldl (fun a k => a ++ [data2.get k]) [])

/-- Source lines 74-104: the `dataList.forEach` loop appending one row per record to
the rows gathered so far, stopping at the first error. -/
def forEachData (defaults : Obj) (cols : List String) :
    List Obj → List (List Val) → Except CellsError (List (List Val))
  | [], rows => .ok rows
  | data :: rest, rows =>
    match buildRow defaults cols data with
    | .error e => .error e
    | .ok row => forEachData defaults cols rest (rows ++ [row])

/-- Source lines 20-106: `Cells(dataList, defaults, order)`. -/
def Cells (dataList : List Obj) (defaults : Obj) (order : Order) : Except CellsError Matrix :=
  match sortedDefaultKeys defaults order with
  | .error e => .error e
  | .ok cols =>
    let header := cols.map (fun k => Header.mk k (defaults.get k))
    match forEachData defaults cols dataList [] with
    | .error e => .error e
    | .ok rows => .ok ⟨header, rows⟩

/-! ## Operations on a matrix -/

/-- Source lines 157-161: `cellsMatrix.slice(0, 1)[0].map(h => h.title)`. -/
def getColumnTitles (cellsMatrix : Matrix) : List String :=
  cellsMatrix.header.map Header.title

/-- Source lines 169-172: `cellsMatrix.slice(1, cellsMatrix.length)`. -/
def getData (cellsMatrix : Matrix) : List (List Val) :=
  cellsMatrix.rows

/-- The array `[header, ...sortedContent]` returned by `sortColumn`, where `header`
is `cellsMatrix.slice(0, 1)`, itself an array of header rows. -/
structure SortedMatrix where
  header : List (List Header)
  content : List (List Val)
  deriving DecidableEq

/-- Element read `row[colIndex]` of an array: `undefined` outside the array. -/
def elemAt (row : List Val) (colIndex : Int) : Val :=
  if colIndex < 0 then Val.undefined else (row.get? colIndex.toNat).getD Val.undefined

/-- Source lines 136-147: the comparator handed to the sort of the content. -/
def rowCompare (funct : Val → Val → Int) (colIndex : Int) (lhs rhs : List Val) : Int :=
  let lhsVal := elemAt lhs colIndex
  let rhsVal := elemAt rhs colIndex
  let sorted := jsSortVals funct [lhsVal, rhsVal]
  if strictEq (sorted.headD Val.undefined) lhsVal then -1
  else if strictEq (sorted.headD Val.undefined) rhsVal then 1
  else 0

/-- Source lines 119-149: `sortColumn(cellsMatrix, colIndex, funct)`; `funct` is
`none` when the argument is not a function. -/
def sortColumn (cellsMatrix : Matrix) (colIndex : Int) (funct : Option (Val → Val → Int)) :
    Except CellsError SortedMatrix :=
  match funct with
  | none => .error .functNotFunction
  | some f =>
    let header := [cellsMatrix.header]
    if colIndex > (header.length : Int) - 1 then .error .colIndexOutOfBounds
    else
      let content := getData cellsMatrix
      let sortedContent := jsSort (rowCompare f colIndex) content
      .ok ⟨header, sortedContent⟩

/-- Source lines 187-189: the defaults object rebuilt from a header row by
`reduce((a, c) => ({...a, [c.title]: c.defaultValue}), {})`. -/
def headerDefaults (header : List Header) : Obj :=
  header.foldl (fun a c => a.set c.title c.defaultValue) []

/-- Source lines 186-191: `changeColumnOrdering(cellsMatrix, order)`.  The data rows
are handed to `Cells` as they are, each an array. -/
def changeColumnOrdering (cellsMatrix : Matrix) (order : Order) : Except CellsError Matrix :=
  let defaults := headerDefaults cellsMatrix.header
  Cells ((getData cellsMatrix).map arrayAsObj) defaults order

/-- Source lines 157-161 applied to the array returned by `sortColumn`: the first
element of that array is `cellsMatrix.slice(0, 1)`, an array of header rows, and the
`title` property read off each of its elements, itself an array, is `undefined`. -/
def getColumnTitlesSorted (sorted : SortedMatrix) : List Val :=
  sorted.header.map (fun _ => Val.undefined)

/-! ## The caller's records -/

/-- Source lines 76-102 with the caller's record made explicit: the result of `buildRow`
together with the state in which the iteration leaves the record object of `dataList`.
The variable `data` names the caller's object until the first
`data = {...data, [key]: defaults[key]}` of line 89 rebinds it to a fresh object; when
`defaultsNotInData` is empty no rebinding happens and the writes `data[key] = ...` of
line 96 go to the caller's object. -/
def buildRowRecord (defaults : Obj) (cols : List String) (data : Obj) :
    Except CellsError (List Val) × Obj :=
  let dataKeys := data.keys
  if dataKeys.length > cols.length then
    (.error (.extraKeys (elementsNotInRefList cols dataKeys)), data)
  else
    let defaultsNotInData := elementsNotInRefList dataKeys cols
    let data1 := fillDefaults defaults defaultsNotInData data
    let data2 := coerceNulls defaults dataKeys data1
    (.ok (cols.foldl (fun a k => a ++ [data2.get k]) []),
      if defaultsNotInData.isEmpty then data2 else data)

/-- Source lines 74-104: the records of `dataList` as the `forEach` loop leaves them; the
records after the one that throws are not visited. -/
def forEachDataRecords (defaults : Obj) (cols : List String) : List Obj → List Obj
  | [] => []
  | data :: rest =>
    match buildRowRecord defaults cols data with
    | (.error _, after) => after :: rest
    | (.ok _, after) => after :: forEachDataRecords defaults cols rest

/-- Source lines 20-106: the records of `dataList` after `Cells(dataList, defaults, order)`
has returned or thrown. -/
def recordsAfterCells (dataList : List Obj) (defaults : Obj) (order : Order) : List Obj :=
  match sortedDefaultKeys defaults order with
  | .error _ => dataList
  | .ok cols => forEachDataRecords defaults cols dataList

/-! ## The rebuild described by the specification -/

/-- The record obtained from a data row by pairing its `j`-th value with the `j`-th
header title (specification, section 4.3). -/
def rowToRecord (titles : List String) (row : List Val) : Obj :=
  (titles.zip row).foldl (fun a p => a.set p.1 p.2) []

/-- The rebuild of the specification, section 4.3: `Cells` applied to the records
re-mapped from the data rows, the defaults read off the header, and the new order. -/
def changeColumnOrderingSpec (cellsMatrix : Matrix) (order : Order) : Except CellsError Matrix :=
  Cells ((getData cellsMatrix).map (rowToRecord (getColumnTitles cellsMatrix)))
    (headerDefaults cellsMatrix.header) order

/-! ## Lemmas on objects -/

theorem Obj.get_nil (k : String) : Obj.get [] k = Val.undefined := rfl

theorem Obj.get_cons (p : String × Val) (o : Obj) (k : String) :
    Obj.get (p :: o) k = if p.1 = k then p.2 else Obj.get o k := by
  obtain ⟨k', v⟩ := p
  rfl

theorem Obj.keys_nil : Obj.keys [] = [] := rfl

theorem Obj.keys_cons (p : String × Val) (o : Obj) : Obj.keys (p :: o) = p.1 :: Obj.keys o := rfl

theorem Obj.get_eq_undefined_of_not_mem (o : Obj) (k : String) (h : k ∉ o.keys) :
    o.get k = Val.undefined := by
  induction o with
  | nil => rfl
  | cons p o ih =>
    rw [Obj.keys_cons, List.mem_cons, not_or] at h
    rw [Obj.get_cons, if_neg (fun e => h.1 e.symm)]
    exact ih h.2

theorem Obj.get_map_set (o : Obj) (k k' : String) (v : Val) :
    Obj.get (o.map (fun p => (p.1, if p.1 = k then v else p.2))) k' =
      if k' = k ∧ k ∈ o.keys then v else Obj.get o k' := by
  induction o with
  | nil => simp [Obj.get_nil, Obj.keys_nil]
  | cons p o ih =>
    rw [List.map_cons, Obj.get_cons, Obj.get_cons, ih, Obj.keys_cons]
    by_cases h1 : p.1 = k' <;> by_cases h3 : k' = k
    · simp [h1, h3]
    · simp [h1, h3]
    · subst h3
      have h2 : ¬ k' = p.1 := fun e => h1 e.symm
      simp [h1, h2]
    · simp [h1, h3]

theorem Obj.get_append_single (o : Obj) (k k' : String) (v : Val) :
    Obj.get (o ++ [(k, v)]) k' = if k' ∈ o.keys then Obj.get o k' else if k = k' then v
      else Val.undefined := by
  induction o with
  | nil => simp [Obj.get_cons, Obj.get_nil, Obj.keys_nil]
  | cons p o ih =>
    rw [List.cons_append, Obj.get_cons, Obj.get_cons, ih, Obj.keys_cons]
    by_cases h1 : p.1 = k' <;> simp_all [eq_comm]

theorem Obj.get_insertIndex (o : Obj) (k k' : String) (n : Nat) (v : Val)
    (h : k ∉ o.keys) :
    Obj.get (Obj.insertIndex o k n v) k' = if k' = k then v else Obj.get o k' := by
  induction o with
  | nil =>
    by_cases hk : k' = k
    · simp [Obj.get_cons, Obj.insertIndex, hk]
    · have hk2 : ¬ k = k' := fun e => hk e.symm
      simp [Obj.get_cons, Obj.get_nil, Obj.insertIndex, hk, hk2]
  | cons p o ih =>
    obtain ⟨k0, v0⟩ := p
    rw [Obj.keys_cons, List.mem_cons, not_or] at h
    have key : Obj.get ((k, v) :: (k0, v0) :: o) k' =
        if k' = k then v else Obj.get ((k0, v0) :: o) k' := by
      rw [Obj.get_cons]
      by_cases hk : k' = k
      · simp [hk]
      · have hk2 : ¬ k = k' := fun e => hk e.symm
        simp [hk, hk2]
    unfold Obj.insertIndex
    cases hidx : arrayIndex? k0 with
    | none => exact key
    | some m =>
      by_cases hm : m < n
      · simp only [hm, if_true]
        rw [Obj.get_cons, Obj.get_cons, ih h.2]
        by_cases hk : k' = k
        · subst hk
          have h0 : ¬ k0 = k' := fun e => h.1 e.symm
          simp [h0]
        · simp [hk]
      · simp only [hm, if_false]
        exact key

theorem Obj.get_set (o : Obj) (k k' : String) (v : Val) :
    Obj.get (o.set k v) k' = if k' = k then v else Obj.get o k' := by
  unfold Obj.set
  by_cases hmem : k ∈ o.keys
  · rw [if_pos hmem, Obj.get_map_set]
    by_cases hk : k' = k
    · simp [hk, hmem]
    · simp [hk]
  · rw [if_neg hmem]
    cases hidx : arrayIndex? k with
    | some n => exact Obj.get_insertIndex o k k' n v hmem
    | none =>
      show Obj.get (o ++ [(k, v)]) k' = _
      rw [Obj.get_append_single]
      by_cases hk : k' = k
      · subst hk
        simp [hmem]
      · have hk2 : ¬ k = k' := fun e => hk e.symm
        by_cases hm2 : k' ∈ o.keys
        · simp [hk, hm2]
        · simp [hk, hk2, hm2, Obj.get_eq_undefined_of_not_mem o k' hm2]

theorem Obj.get_set_self (o : Obj) (k : String) (v : Val) : Obj.get (o.set k v) k = v := by
  rw [Obj.get_set, if_pos rfl]

theorem Obj.get_set_ne (o : Obj) (k k' : String) (v : Val) (h : k' ≠ k) :
    Obj.get (o.set k v) k' = Obj.get o k' := by
  rw [Obj.get_set, if_neg h]

theorem Obj.ordered_cons (p : String × Val) (o : Obj) :
    Obj.ordered (p :: o) = true ↔
      (∀ q ∈ o, q.1 ≠ p.1 ∧ keyBefore p.1 q.1 = true) ∧ Obj.ordered o = true := by
  obtain ⟨k, v⟩ := p
  simp [Obj.ordered, List.all_eq_true]

theorem Obj.ordered_append_cons (p s : Obj) (k : String) (v : Val)
    (h : Obj.ordered (p ++ (k, v) :: s) = true) :
    ∀ q ∈ p, q.1 ≠ k ∧ keyBefore q.1 k = true := by
  induction p with
  | nil => simp
  | cons q0 p ih =>
    rw [List.cons_append, Obj.ordered_cons] at h
    intro q hq
    rcases List.mem_cons.mp hq with hq | hq
    · subst hq
      have := h.1 (k, v) (by simp)
      exact ⟨fun e => this.1 e.symm, this.2⟩
    · exact ih h.2 q hq

theorem Obj.keys_nodup_of_ordered (o : Obj) (h : Obj.ordered o = true) : o.keys.Nodup := by
  induction o with
  | nil => simp [Obj.keys]
  | cons p o ih =>
    rw [Obj.ordered_cons] at h
    rw [Obj.keys_cons, List.nodup_cons]
    refine ⟨?_, ih h.2⟩
    intro hmem
    unfold Obj.keys at hmem
    obtain ⟨q, hq, hq1⟩ := List.mem_map.mp hmem
    exact (h.1 q hq).1 hq1

theorem Obj.insertIndex_eq_append (p : Obj) (k : String) (n : Nat) (v : Val)
    (hidx : arrayIndex? k = some n) (h : ∀ q ∈ p, keyBefore q.1 k = true) :
    Obj.insertIndex p k n v = p ++ [(k, v)] := by
  induction p with
  | nil => rfl
  | cons q0 p ih =>
    obtain ⟨k0, v0⟩ := q0
    have h0 := h (k0, v0) (List.mem_cons_self _ _)
    unfold keyBefore at h0
    rw [hidx] at h0
    unfold Obj.insertIndex
    cases h1 : arrayIndex? k0 with
    | none => simp [h1] at h0
    | some m =>
      simp only [h1, decide_eq_true_eq] at h0
      simp only [h0, if_true, List.cons_append]
      rw [ih (fun q hq => h q (List.mem_cons_of_mem _ hq))]

theorem Obj.set_eq_append (p : Obj) (k : String) (v : Val)
    (h : ∀ q ∈ p, q.1 ≠ k ∧ keyBefore q.1 k = true) :
    p.set k v = p ++ [(k, v)] := by
  have hmem : k ∉ p.keys := by
    intro hmem
    unfold Obj.keys at hmem
    obtain ⟨q, hq, hq1⟩ := List.mem_map.mp hmem
    exact (h q hq).1 hq1
  unfold Obj.set
  rw [if_neg hmem]
  cases hidx : arrayIndex? k with
  | none => rfl
  | some n => exact Obj.insertIndex_eq_append p k n v hidx (fun q hq => (h q hq).2)

theorem Obj.get_append_cons (p s : Obj) (k : String) (v : Val) (h : ∀ q ∈ p, q.1 ≠ k) :
    Obj.get (p ++ (k, v) :: s) k = v := by
  induction p with
  | nil => simp [Obj.get_cons]
  | cons q0 p ih =>
    rw [List.cons_append, Obj.get_cons, if_neg (h q0 (List.mem_cons_self _ _))]
    exact ih (fun q hq => h q (List.mem_cons_of_mem _ hq))

theorem headerDefaults_fold (s p : Obj) (h : Obj.ordered (p ++ s) = true) :
    (s.keys.map (fun k => Header.mk k ((p ++ s).get k))).foldl
      (fun a c => a.set c.title c.defaultValue) p = p ++ s := by
  induction s generalizing p with
  | nil => simp [Obj.keys]
  | cons kv s ih =>
    obtain ⟨k, v⟩ := kv
    have hp := Obj.ordered_append_cons p s k v h
    have hget : Obj.get (p ++ (k, v) :: s) k = v :=
      Obj.get_append_cons p s k v (fun q hq => (hp q hq).1)
    have happ : p ++ (k, v) :: s = (p ++ [(k, v)]) ++ s := by simp
    rw [Obj.keys_cons, List.map_cons, List.foldl_cons]
    simp only [hget]
    rw [Obj.set_eq_append p k v hp, happ]
    rw [happ] at h
    exact ih (p ++ [(k, v)]) h

theorem headerDefaults_of_ordered (defaults : Obj) (h : Obj.ordered defaults = true) :
    headerDefaults (defaults.keys.map (fun k => Header.mk k (defaults.get k))) = defaults := by
  have := headerDefaults_fold defaults [] (by simpa using h)
  simpa [headerDefaults] using this

theorem keys_arrayAsObj_length (row : List Val) : (arrayAsObj row).keys.length = row.length := by
  simp [arrayAsObj, Obj.keys]

/-! ## Lemmas on the helpers of `Cells` -/

theorem notInList_eq_false_iff (list : List String) (element : String) :
    notInList list element = false ↔ element ∈ list ∧ element ≠ "" := by
  unfold notInList
  cases hf : list.filter (fun e => decide (e = element)) with
  | nil =>
    have hno : element ∉ list := by
      intro hmem
      have : element ∈ list.filter (fun e => decide (e = element)) :=
        List.mem_filter.mpr ⟨hmem, by simp⟩
      rw [hf] at this
      exact List.not_mem_nil _ this
    simp [truthy, hno]
  | cons e rest =>
    have he : e ∈ list.filter (fun e => decide (e = element)) := by
      rw [hf]
      exact List.mem_cons_self _ _
    obtain ⟨hmem, heq⟩ := List.mem_filter.mp he
    have heq2 : e = element := by simpa using heq
    subst heq2
    simp [truthy, hmem]

theorem notInList_eq_true_iff (list : List String) (element : String) :
    notInList list element = true ↔ element ∉ list ∨ element = "" := by
  rw [← Bool.not_eq_false, notInList_eq_false_iff]
  tauto

theorem notInList_of_not_mem (list : List String) (element : String) (h : element ∉ list) :
    notInList list element = true :=
  (notInList_eq_true_iff list element).mpr (Or.inl h)

theorem foldl_append_if (f : String → Bool) (refList acc : List String) :
    refList.foldl (fun a c => if f c then a ++ [c] else a) acc = acc ++ refList.filter f := by
  induction refList generalizing acc with
  | nil => simp
  | cons c rest ih =>
    rw [List.foldl_cons, ih]
    by_cases hc : f c
    · simp [hc, List.filter_cons]
    · simp [hc, List.filter_cons]

theorem elementsNotInRefList_eq_filter (list refList : List String) :
    elementsNotInRefList list refList = refList.filter (notInList list) := by
  unfold elementsNotInRefList
  rw [foldl_append_if (notInList list) refList []]
  rfl

theorem foldl_append_map {α β : Type} (f : α → β) (xs : List α) (acc : List β) :
    xs.foldl (fun a k => a ++ [f k]) acc = acc ++ xs.map f := by
  induction xs generalizing acc with
  | nil => simp
  | cons x rest ih => rw [List.foldl_cons, ih]; simp

theorem get_fillDefaults (defaults : Obj) (keys : List String) (data : Obj) (k : String) :
    (fillDefaults defaults keys data).get k =
      if k ∈ keys then defaults.get k else data.get k := by
  unfold fillDefaults
  induction keys generalizing data with
  | nil => simp
  | cons key rest ih =>
    rw [List.foldl_cons, ih]
    by_cases h1 : k ∈ rest
    · simp [h1]
    · by_cases h2 : k = key
      · subst h2
        simp [h1, Obj.get_set_self]
      · simp [h1, h2, Obj.get_set_ne _ _ _ _ h2]

theorem get_coerceNulls (defaults : Obj) (dataKeys : List String) (data : Obj) (k : String) :
    (coerceNulls defaults dataKeys data).get k =
      if k ∈ dataKeys ∧ data.get k = Val.null ∧ defaults.get k ≠ Val.null then defaults.get k
      else data.get k := by
  unfold coerceNulls
  induction dataKeys generalizing data with
  | nil => simp
  | cons key rest ih =>
    rw [List.foldl_cons, ih]
    by_cases hk : k = key
    · subst hk
      by_cases hc : data.get k = Val.null ∧ defaults.get k ≠ Val.null
      · rw [if_pos hc, Obj.get_set_self]
        have h3 : ¬ (k ∈ rest ∧ defaults.get k = Val.null ∧ defaults.get k ≠ Val.null) :=
          fun h => h.2.2 h.2.1
        rw [if_neg h3, if_pos ⟨List.mem_cons_self _ _, hc⟩]
      · rw [if_neg hc]
        have h3 : ¬ (k ∈ rest ∧ data.get k = Val.null ∧ defaults.get k ≠ Val.null) :=
          fun h => hc h.2
        have h4 : ¬ (k ∈ k :: rest ∧ data.get k = Val.null ∧ defaults.get k ≠ Val.null) :=
          fun h => hc h.2
        rw [if_neg h3, if_neg h4]
    · have hget : (if data.get key = Val.null ∧ defaults.get key ≠ Val.null
          then data.set key (defaults.get key) else data).get k = data.get k := by
        by_cases hc : data.get key = Val.null ∧ defaults.get key ≠ Val.null
        · rw [if_pos hc, Obj.get_set_ne _ _ _ _ hk]
        · rw [if_neg hc]
      rw [hget]
      simp [hk]

theorem buildRow_ok (defaults : Obj) (cols : List String) (data : Obj) (row : List Val)
    (h : buildRow defaults cols data = .ok row) :
    data.keys.length ≤ cols.length ∧
    row = cols.map (fun k => (coerceNulls defaults data.keys
      (fillDefaults defaults (elementsNotInRefList data.keys cols) data)).get k) := by
  unfold buildRow at h
  by_cases hlen : data.keys.length > cols.length
  · simp [hlen] at h
  · simp only [hlen, if_false, Except.ok.injEq] at h
    refine ⟨Nat.le_of_not_lt hlen, ?_⟩
    rw [← h, foldl_append_map]
    rfl

theorem buildRow_of_le (defaults : Obj) (cols : List String) (data : Obj)
    (h : data.keys.length ≤ cols.length) :
    ∃ row, buildRow defaults cols data = .ok row := by
  unfold buildRow
  have hlen : ¬ data.keys.length > cols.length := Nat.not_lt.mpr h
  simp [hlen]

theorem buildRow_cell (defaults : Obj) (cols : List String) (data : Obj) (row : List Val)
    (h : buildRow defaults cols data = .ok row) (j : Nat) (k : String)
    (hk : cols[j]? = some k) :
    row[j]? = some
      (if k ∈ data.keys ∧
          (if notInList data.keys k then defaults.get k else data.get k) = Val.null ∧
          defaults.get k ≠ Val.null
       then defaults.get k
       else (if notInList data.keys k then defaults.get k else data.get k)) := by
  obtain ⟨_, hrow⟩ := buildRow_ok defaults cols data row h
  have hmem : k ∈ cols := List.getElem?_mem hk
  rw [hrow, List.getElem?_map, hk, Option.map_some', get_coerceNulls, get_fillDefaults,
    elementsNotInRefList_eq_filter]
  have hf : k ∈ cols.filter (notInList data.keys) ↔ notInList data.keys k = true := by
    rw [List.mem_filter]
    exact ⟨fun h => h.2, fun h => ⟨hmem, h⟩⟩
  by_cases hn : notInList data.keys k = true
  · simp [hf, hn]
  · simp [hf, hn]

theorem forEachData_ok (defaults : Obj) (cols : List String) (dataList : List Obj)
    (acc rows : List (List Val)) (h : forEachData defaults cols dataList acc = .ok rows) :
    ∃ rs, rows = acc ++ rs ∧
      List.Forall₂ (fun data row => buildRow defaults cols data = .ok row) dataList rs := by
  induction dataList generalizing acc with
  | nil =>
    simp only [forEachData, Except.ok.injEq] at h
    exact ⟨[], by simp [h], List.Forall₂.nil⟩
  | cons data rest ih =>
    unfold forEachData at h
    cases hb : buildRow defaults cols data with
    | error e => simp [hb] at h
    | ok row =>
      simp only [hb] at h
      obtain ⟨rs, hrs, hall⟩ := ih (acc ++ [row]) h
      exact ⟨row :: rs, by simp [hrs], List.Forall₂.cons hb hall⟩

theorem forEachData_of_le (defaults : Obj) (cols : List String) (dataList : List Obj)
    (acc : List (List Val)) (h : ∀ data ∈ dataList, data.keys.length ≤ cols.length) :
    ∃ rows, forEachData defaults cols dataList acc = .ok rows := by
  induction dataList generalizing acc with
  | nil => exact ⟨acc, rfl⟩
  | cons data rest ih =>
    obtain ⟨row, hrow⟩ := buildRow_of_le defaults cols data (h data (List.mem_cons_self _ _))
    obtain ⟨rows, hrows⟩ := ih (acc ++ [row]) (fun d hd => h d (List.mem_cons_of_mem _ hd))
    refine ⟨rows, ?_⟩
    unfold forEachData
    simp only [hrow]
    exact hrows

theorem Cells_ok (dataList : List Obj) (defaults : Obj) (order : Order) (m : Matrix)
    (h : Cells dataList defaults order = .ok m) :
    ∃ cols, sortedDefaultKeys defaults order = .ok cols ∧
      m.header = cols.map (fun k => Header.mk k (defaults.get k)) ∧
      List.Forall₂ (fun data row => buildRow defaults cols data = .ok row) dataList m.rows := by
  unfold Cells at h
  cases hs : sortedDefaultKeys defaults order with
  | error e => simp [hs] at h
  | ok cols =>
    simp only [hs] at h
    cases hf : forEachData defaults cols dataList [] with
    | error e => simp [hf] at h
    | ok rows =>
      simp only [hf, Except.ok.injEq] at h
      obtain ⟨rs, hrs, hall⟩ := forEachData_ok defaults cols dataList [] rows hf
      rw [List.nil_append] at hrs
      subst hrs
      subst h
      exact ⟨cols, rfl, rfl, hall⟩

theorem getColumnTitles_map (defaults : Obj) (cols : List String) (rows : List (List Val)) :
    getColumnTitles ⟨cols.map (fun k => Header.mk k (defaults.get k)), rows⟩ = cols := by
  unfold getColumnTitles
  simp [List.map_map, Function.comp_def]

theorem forall₂_getElem? {α β : Type} (R : α → β → Prop) (l₁ : List α) (l₂ : List β)
    (h : List.Forall₂ R l₁ l₂) (i : Nat) (a : α) (ha : l₁[i]? = some a) :
    ∃ b, l₂[i]? = some b ∧ R a b := by
  induction h generalizing i with
  | nil => simp at ha
  | cons hab _ ih =>
    cases i with
    | zero =>
      simp only [List.getElem?_cons_zero, Option.some.injEq] at ha
      subst ha
      exact ⟨_, by simp, hab⟩
    | succ i =>
      simp only [List.getElem?_cons_succ] at ha
      obtain ⟨b, hb, hr⟩ := ih i ha
      exact ⟨b, by simpa using hb, hr⟩

theorem forall₂_exists_left {α β : Type} (R : α → β → Prop) (l₁ : List α) (l₂ : List β)
    (h : List.Forall₂ R l₁ l₂) (b : β) (hb : b ∈ l₂) : ∃ a, a ∈ l₁ ∧ R a b := by
  induction h with
  | nil => simp at hb
  | cons hab _ ih =>
    rcases List.mem_cons.mp hb with hb | hb
    · subst hb
      exact ⟨_, List.mem_cons_self _ _, hab⟩
    · obtain ⟨a, ha, hr⟩ := ih hb
      exact ⟨a, List.mem_cons_of_mem _ ha, hr⟩

theorem Cells_titles (dataList : List Obj) (defaults : Obj) (order : Order) (m : Matrix)
    (h : Cells dataList defaults order = .ok m) :
    sortedDefaultKeys defaults order = .ok (getColumnTitles m) := by
  obtain ⟨cols, hcols, hhead, _⟩ := Cells_ok dataList defaults order m h
  have : getColumnTitles m = cols := by
    unfold getColumnTitles
    rw [hhead]
    simp [List.map_map, Function.comp_def]
  rw [this]
  exact hcols

theorem Cells_cell (dataList : List Obj) (defaults : Obj) (order : Order) (m : Matrix)
    (h : Cells dataList defaults order = .ok m) (i : Nat) (data : Obj)
    (hi : dataList[i]? = some data) (j : Nat) (k : String)
    (hj : (getColumnTitles m)[j]? = some k) :
    ∃ row, (getData m)[i]? = some row ∧ row[j]? = some
      (if k ∈ data.keys ∧
          (if notInList data.keys k then defaults.get k else data.get k) = Val.null ∧
          defaults.get k ≠ Val.null
       then defaults.get k
       else (if notInList data.keys k then defaults.get k else data.get k)) := by
  have ht := Cells_titles dataList defaults order m h
  obtain ⟨cols, hcols, _, hall⟩ := Cells_ok dataList defaults order m h
  rw [hcols, Except.ok.injEq] at ht
  subst ht
  obtain ⟨row, hrow, hbuild⟩ := forall₂_getElem? _ dataList m.rows hall i data hi
  exact ⟨row, hrow, buildRow_cell defaults _ data row hbuild j k hj⟩

/-! ## Lemmas on the resolved column order -/

theorem orderForEach_ok (defaultKeys order acc keysSorted : List String)
    (h : orderForEach defaultKeys order acc = .ok keysSorted) :
    keysSorted = acc ++ order ∧ ∀ x ∈ order, notInList defaultKeys x = false := by
  induction order generalizing acc with
  | nil =>
    simp only [orderForEach, Except.ok.injEq] at h
    simp [h]
  | cons columnTitle rest ih =>
    unfold orderForEach at h
    by_cases hn : notInList defaultKeys columnTitle = true
    · simp [hn] at h
    · simp only [hn] at h
      obtain ⟨hks, hall⟩ := ih (acc ++ [columnTitle]) h
      refine ⟨by simp [hks], ?_⟩
      intro x hx
      rcases List.mem_cons.mp hx with hx | hx
      · subst hx
        simpa using hn
      · exact hall x hx

theorem orderForEach_of_all (defaultKeys order acc : List String)
    (h : ∀ x ∈ order, notInList defaultKeys x = false) :
    orderForEach defaultKeys order acc = .ok (acc ++ order) := by
  induction order generalizing acc with
  | nil => simp [orderForEach]
  | cons columnTitle rest ih =>
    unfold orderForEach
    rw [h columnTitle (List.mem_cons_self _ _)]
    simp only [Bool.false_eq_true, if_false]
    rw [ih (acc ++ [columnTitle]) (fun x hx => h x (List.mem_cons_of_mem _ hx))]
    simp

theorem fillKeys_eq (rest keysSorted : List String) (hnd : rest.Nodup)
    (hempty : "" ∈ rest → "" ∉ keysSorted) :
    fillKeys rest keysSorted =
      keysSorted ++ rest.filter (fun key => decide (key ∉ keysSorted)) := by
  unfold fillKeys
  induction rest generalizing keysSorted with
  | nil => simp
  | cons key rest ih =>
    rw [List.nodup_cons] at hnd
    rw [List.foldl_cons]
    have hiff : notInList keysSorted key = true ↔ key ∉ keysSorted := by
      rw [notInList_eq_true_iff]
      constructor
      · intro h
        rcases h with h | h
        · exact h
        · subst h
          exact hempty (List.mem_cons_self _ _)
      · exact Or.inl
    by_cases hk : key ∈ keysSorted
    · have hn : ¬ notInList keysSorted key = true := fun h => hiff.mp h hk
      simp only [hn, Bool.false_eq_true, if_false]
      rw [ih keysSorted hnd.2 (fun h => hempty (List.mem_cons_of_mem _ h))]
      simp [List.filter_cons, hk]
    · have hn : notInList keysSorted key = true := hiff.mpr hk
      simp only [hn, if_true]
      have hempty2 : "" ∈ rest → "" ∉ keysSorted ++ [key] := by
        intro h1 h2
        rcases List.mem_append.mp h2 with h2 | h2
        · exact hempty (List.mem_cons_of_mem _ h1) h2
        · have : "" = key := by simpa using h2
          subst this
          exact hnd.1 h1
      rw [ih (keysSorted ++ [key]) hnd.2 hempty2]
      have hfilter : rest.filter (fun x => decide (x ∉ keysSorted ++ [key])) =
          rest.filter (fun x => decide (x ∉ keysSorted)) := by
        apply List.filter_congr
        intro x hx
        have hxk : x ≠ key := fun e => hnd.1 (e ▸ hx)
        simp [hxk]
      rw [hfilter]
      simp [List.filter_cons, hk]

theorem sortedDefaultKeys_list (defaults : Obj) (order cols : List String)
    (hnd : defaults.keys.Nodup)
    (h : sortedDefaultKeys defaults (.list order) = .ok cols) :
    (∀ x ∈ order, x ∈ defaults.keys ∧ x ≠ "") ∧
    cols = if order.length < defaults.keys.length
      then order ++ defaults.keys.filter (fun key => decide (key ∉ order)) else order := by
  unfold sortedDefaultKeys at h
  cases ho : orderForEach defaults.keys order [] with
  | error e => simp [ho] at h
  | ok keysSorted =>
    simp only [ho] at h
    obtain ⟨hks, hall⟩ := orderForEach_ok defaults.keys order [] keysSorted ho
    rw [List.nil_append] at hks
    subst hks
    have hmem : ∀ x ∈ keysSorted, x ∈ defaults.keys ∧ x ≠ "" :=
      fun x hx => (notInList_eq_false_iff _ _).mp (hall x hx)
    refine ⟨hmem, ?_⟩
    by_cases hlen : keysSorted.length < defaults.keys.length
    · simp only [hlen, if_true, Except.ok.injEq] at h
      rw [if_pos hlen, ← h]
      exact fillKeys_eq defaults.keys keysSorted hnd (fun _ hin => (hmem "" hin).2 rfl)
    · simp only [hlen, if_false, Except.ok.injEq] at h
      rw [if_neg hlen, ← h]

theorem jsSort_perm {α : Type} (compareFn : α → α → Int) (xs : List α) :
    (jsSort compareFn xs).Perm xs := by
  unfold jsSort
  exact List.perm_insertionSort _ xs

theorem filter_mem_perm (keys order : List String) (hk : keys.Nodup) (ho : order.Nodup)
    (hsub : ∀ x ∈ order, x ∈ keys) :
    (keys.filter (fun key => decide (key ∈ order))).Perm order := by
  rw [List.perm_ext_iff_of_nodup (hk.filter _) ho]
  intro a
  rw [List.mem_filter]
  constructor
  · intro h
    simpa using h.2
  · intro h
    exact ⟨hsub a h, by simpa using h⟩

theorem append_filter_not_mem_perm (keys order : List String) (hk : keys.Nodup)
    (ho : order.Nodup) (hsub : ∀ x ∈ order, x ∈ keys) :
    (order ++ keys.filter (fun key => decide (key ∉ order))).Perm keys := by
  have h1 := List.filter_append_perm (fun key => decide (key ∈ order)) keys
  have h2 := filter_mem_perm keys order hk ho hsub
  have h3 : keys.filter (fun key => decide (key ∉ order)) =
      keys.filter (fun x => !(fun key => decide (key ∈ order)) x) := by
    apply List.filter_congr
    intro x _
    simp
  rw [h3]
  exact (List.Perm.append_right _ h2.symm).trans h1

theorem sortedDefaultKeys_length_ge (defaults : Obj) (order : Order) (cols : List String)
    (hnd : defaults.keys.Nodup) (h : sortedDefaultKeys defaults order = .ok cols) :
    defaults.keys.length ≤ cols.length := by
  cases order with
  | absent =>
    simp only [sortedDefaultKeys, Except.ok.injEq] at h
    rw [← h]
  | string s => simp [sortedDefaultKeys] at h
  | funct compareFn =>
    simp only [sortedDefaultKeys, Except.ok.injEq] at h
    rw [← h, (jsSort_perm compareFn defaults.keys).length_eq]
  | list order =>
    obtain ⟨_, hcols⟩ := sortedDefaultKeys_list defaults order cols hnd h
    by_cases hlen : order.length < defaults.keys.length
    · rw [if_pos hlen] at hcols
      have h1 := (List.filter_append_perm (fun key => decide (key ∈ order)) defaults.keys).length_eq
      have h2 : (defaults.keys.filter (fun key => decide (key ∈ order))).length ≤ order.length := by
        apply List.Subperm.length_le
        apply List.subperm_of_subset (hnd.filter _)
        intro x hx
        simpa using (List.mem_filter.mp hx).2
      have h3 : defaults.keys.filter (fun key => decide (key ∉ order)) =
          defaults.keys.filter (fun x => !decide (x ∈ order)) := by
        apply List.filter_congr
        intro x _
        simp
      rw [hcols, List.length_append, h3]
      rw [List.length_append] at h1
      omega
    · rw [if_neg hlen] at hcols
      rw [hcols]
      omega

theorem Cells_rows_length (dataList : List Obj) (defaults : Obj) (order : Order) (m : Matrix)
    (h : Cells dataList defaults order = .ok m) :
    ∀ row ∈ m.rows, row.length = m.header.length := by
  obtain ⟨cols, _, hhead, hall⟩ := Cells_ok dataList defaults order m h
  intro row hrow
  obtain ⟨data, _, hbuild⟩ := forall₂_exists_left _ dataList m.rows hall row hrow
  obtain ⟨_, hr⟩ := buildRow_ok defaults cols data row hbuild
  rw [hr, hhead, List.length_map, List.length_map]

theorem Cells_of_le (dataList : List Obj) (defaults : Obj) (order : Order) (cols : List String)
    (hcols : sortedDefaultKeys defaults order = .ok cols)
    (hle : ∀ data ∈ dataList, data.keys.length ≤ cols.length) :
    ∃ m, Cells dataList defaults order = .ok m ∧ getColumnTitles m = cols := by
  obtain ⟨rows, hrows⟩ := forEachData_of_le defaults cols dataList [] hle
  refine ⟨⟨cols.map (fun k => Header.mk k (defaults.get k)), rows⟩, ?_,
    getColumnTitles_map defaults cols rows⟩
  unfold Cells
  simp only [hcols, hrows]

/-! ## Value pass-through, default fill and null coercion -/

/-- Supporting fact for C1: a record's value under a column title that is not the
empty string, when it is not `null`, is the value of the row at that column. -/
theorem Cells_value_of_nonempty_key (dataList : List Obj) (defaults : Obj) (order : Order)
    (m : Matrix) (h : Cells dataList defaults order = .ok m) (i : Nat) (data : Obj)
    (hi : dataList[i]? = some data) (j : Nat) (k : String)
    (hj : (getColumnTitles m)[j]? = some k) (hk : k ∈ data.keys) (hne : k ≠ "")
    (hv : data.get k ≠ Val.null) :
    ∃ row, (getData m)[i]? = some row ∧ row[j]? = some (data.get k) := by
  obtain ⟨row, hrow, hcell⟩ := Cells_cell dataList defaults order m h i data hi j k hj
  refine ⟨row, hrow, ?_⟩
  have hn : notInList data.keys k = false := (notInList_eq_false_iff _ _).mpr ⟨hk, hne⟩
  rw [hcell]
  simp [hn, hv]

/-- C1 (value pass-through), evaluated where it breaks: the record `{'': 5}` holds the
non-null value `5` under the column title `''`, and with defaults `{'': 0}` the data
row built by `Cells` holds the default `0` at that column, because `notInList`
reports the empty title as missing from the record's keys. -/
theorem Cells_empty_title_value_lost :
    Obj.get [("", Val.num 5)] "" = Val.num 5 ∧
    Cells [[("", Val.num 5)]] [("", Val.num 0)] Order.absent =
      .ok ⟨[⟨"", Val.num 0⟩], [[Val.num 0]]⟩ := by
  decide

/-- C2 (default fill): when `Cells` returns a matrix, a record that lacks the key `k`
of the resolved column at position `j` gets `defaults[k]` at position `j` of its
row. -/
theorem Cells_default_fill (dataList : List Obj) (defaults : Obj) (order : Order)
    (m : Matrix) (h : Cells dataList defaults order = .ok m) (i : Nat) (data : Obj)
    (hi : dataList[i]? = some data) (j : Nat) (k : String)
    (hj : (getColumnTitles m)[j]? = some k) (hk : k ∉ data.keys) :
    ∃ row, (getData m)[i]? = some row ∧ row[j]? = some (defaults.get k) := by
  obtain ⟨row, hrow, hcell⟩ := Cells_cell dataList defaults order m h i data hi j k hj
  refine ⟨row, hrow, ?_⟩
  rw [hcell]
  simp [hk, notInList_of_not_mem _ _ hk]

/-- Witness for C2: the record `{a: 5}` against defaults `{a: 0, b: 1}`. -/
theorem Cells_default_fill_witness :
    Cells [[("a", Val.num 5)]] [("a", Val.num 0), ("b", Val.num 1)] Order.absent =
      .ok ⟨[⟨"a", Val.num 0⟩, ⟨"b", Val.num 1⟩], [[Val.num 5, Val.num 1]]⟩ ∧
    "b" ∉ Obj.keys [("a", Val.num 5)] ∧
    ∃ row, (getData ⟨[⟨"a", Val.num 0⟩, ⟨"b", Val.num 1⟩], [[Val.num 5, Val.num 1]]⟩)[0]?
        = some row ∧
      row[1]? = some (Obj.get [("a", Val.num 0), ("b", Val.num 1)] "b") :=
  ⟨by decide, by decide,
    Cells_default_fill [[("a", Val.num 5)]] [("a", Val.num 0), ("b", Val.num 1)] Order.absent
      ⟨[⟨"a", Val.num 0⟩, ⟨"b", Val.num 1⟩], [[Val.num 5, Val.num 1]]⟩ (by decide)
      0 [("a", Val.num 5)] (by decide) 1 "b" (by decide) (by decide)⟩

/-- C3 (null coercion): when `Cells` returns a matrix and a record holds `null` under
the resolved column `k` at position `j`, its row holds `defaults[k]` at `j` when
`defaults[k]` is not `null`, and `null` when `defaults[k]` is `null`. -/
theorem Cells_null_coercion (dataList : List Obj) (defaults : Obj) (order : Order)
    (m : Matrix) (h : Cells dataList defaults order = .ok m) (i : Nat) (data : Obj)
    (hi : dataList[i]? = some data) (j : Nat) (k : String)
    (hj : (getColumnTitles m)[j]? = some k) (hnull : data.get k = Val.null) :
    ∃ row, (getData m)[i]? = some row ∧
      (defaults.get k ≠ Val.null → row[j]? = some (defaults.get k)) ∧
      (defaults.get k = Val.null → row[j]? = some Val.null) := by
  obtain ⟨row, hrow, hcell⟩ := Cells_cell dataList defaults order m h i data hi j k hj
  refine ⟨row, hrow, ?_, ?_⟩
  · intro hd
    rw [hcell]
    have hk : k ∈ data.keys := by
      by_contra hno
      rw [Obj.get_eq_undefined_of_not_mem data k hno] at hnull
      exact absurd hnull (by decide)
    by_cases hn : notInList data.keys k = true
    · simp [hn]
    · simp [hn, hnull, hk, hd]
  · intro hd
    rw [hcell]
    by_cases hn : notInList data.keys k = true
    · simp [hn, hd]
    · simp [hn, hnull, hd]

/-- Witness for C3: the record `{a: null, b: null}` against defaults `{a: 0, b: null}`. -/
theorem Cells_null_coercion_witness :
    Cells [[("a", Val.null), ("b", Val.null)]] [("a", Val.num 0), ("b", Val.null)]
      Order.absent = .ok ⟨[⟨"a", Val.num 0⟩, ⟨"b", Val.null⟩], [[Val.num 0, Val.null]]⟩ ∧
    Obj.get [("a", Val.null), ("b", Val.null)] "a" = Val.null ∧
    ∃ row, (getData ⟨[⟨"a", Val.num 0⟩, ⟨"b", Val.null⟩], [[Val.num 0, Val.null]]⟩)[0]?
        = some row ∧
      (Obj.get [("a", Val.num 0), ("b", Val.null)] "a" ≠ Val.null →
        row[0]? = some (Obj.get [("a", Val.num 0), ("b", Val.null)] "a")) ∧
      (Obj.get [("a", Val.num 0), ("b", Val.null)] "a" = Val.null →
        row[0]? = some Val.null) :=
  ⟨by decide, by decide,
    Cells_null_coercion [[("a", Val.null), ("b", Val.null)]]
      [("a", Val.num 0), ("b", Val.null)] Order.absent
      ⟨[⟨"a", Val.num 0⟩, ⟨"b", Val.null⟩], [[Val.num 0, Val.null]]⟩ (by decide)
      0 [("a", Val.null), ("b", Val.null)] (by decide) 0 "a" (by decide) (by decide)⟩

/-! ## Shape of the matrix -/

/-- C4 (row alignment): when `Cells` returns a matrix, the matrix has `1 + len(records)`
elements and every data row is as long as the header row. -/
theorem Cells_row_alignment (dataList : List Obj) (defaults : Obj) (order : Order)
    (m : Matrix) (h : Cells dataList defaults order = .ok m) :
    m.size = 1 + dataList.length ∧ ∀ row ∈ getData m, row.length = m.header.length := by
  obtain ⟨cols, _, hhead, hall⟩ := Cells_ok dataList defaults order m h
  refine ⟨?_, ?_⟩
  · unfold Matrix.size
    rw [hall.length_eq]
  · intro row hrow
    obtain ⟨data, _, hbuild⟩ := forall₂_exists_left _ dataList m.rows hall row hrow
    obtain ⟨_, hr⟩ := buildRow_ok defaults cols data row hbuild
    rw [hr, hhead, List.length_map, List.length_map]

/-- Witness for C4: two records against defaults `{a: 0, b: 1}` with order `['b']`. -/
theorem Cells_row_alignment_witness :
    Cells [[("a", Val.num 5)], [("b", Val.num 7)]] [("a", Val.num 0), ("b", Val.num 1)]
      (Order.list ["b"]) = .ok ⟨[⟨"b", Val.num 1⟩, ⟨"a", Val.num 0⟩],
        [[Val.num 1, Val.num 5], [Val.num 7, Val.num 0]]⟩ ∧
    Matrix.size ⟨[⟨"b", Val.num 1⟩, ⟨"a", Val.num 0⟩], [[Val.num 1, Val.num 5], [Val.num 7, Val.num 0]]⟩
      = 1 + [[("a", Val.num 5)], [("b", Val.num 7)]].length ∧
    ∀ row ∈ getData ⟨[⟨"b", Val.num 1⟩, ⟨"a", Val.num 0⟩],
        [[Val.num 1, Val.num 5], [Val.num 7, Val.num 0]]⟩,
      row.length = (Matrix.header ⟨[⟨"b", Val.num 1⟩, ⟨"a", Val.num 0⟩],
        [[Val.num 1, Val.num 5], [Val.num 7, Val.num 0]]⟩).length :=
  ⟨by decide,
    Cells_row_alignment [[("a", Val.num 5)], [("b", Val.num 7)]]
      [("a", Val.num 0), ("b", Val.num 1)] (Order.list ["b"])
      ⟨[⟨"b", Val.num 1⟩, ⟨"a", Val.num 0⟩], [[Val.num 1, Val.num 5], [Val.num 7, Val.num 0]]⟩
      (by decide)⟩

/-! ## Column order -/

/-- C5 as stated fails: with defaults `{a: 1, b: 2}` and the explicit order
`['a', 'a']`, as long as the key list, `Cells` returns a matrix whose column titles are
`['a', 'a']`, which is not a permutation of the keys `['a', 'b']`. -/
theorem Cells_repeated_order_not_perm :
    Cells [] [("a", Val.num 1), ("b", Val.num 2)] (Order.list ["a", "a"]) =
      .ok ⟨[⟨"a", Val.num 1⟩, ⟨"a", Val.num 1⟩], []⟩ ∧
    ¬ (getColumnTitles ⟨[⟨"a", Val.num 1⟩, ⟨"a", Val.num 1⟩], []⟩).Perm
      (Obj.keys [("a", Val.num 1), ("b", Val.num 2)]) := by
  refine ⟨by decide, ?_⟩
  intro hperm
  have hb : "b" ∈ getColumnTitles ⟨[⟨"a", Val.num 1⟩, ⟨"a", Val.num 1⟩], []⟩ :=
    hperm.symm.subset (by decide)
  revert hb
  decide

/-- C5 amended (column completeness): when `Cells` returns a matrix for defaults with
distinct keys and an order that is absent, a comparator, or a list of titles without
a repeated entry, the column titles of the result are as many as the keys of
`defaults` and are a permutation of them. -/
theorem Cells_column_completeness (dataList : List Obj) (defaults : Obj) (order : Order)
    (m : Matrix) (hnd : defaults.keys.Nodup)
    (hord : ∀ titles, order = Order.list titles → titles.Nodup)
    (h : Cells dataList defaults order = .ok m) :
    (getColumnTitles m).length = defaults.keys.length ∧
    (getColumnTitles m).Perm defaults.keys := by
  have ht := Cells_titles dataList defaults order m h
  have hperm : (getColumnTitles m).Perm defaults.keys := by
    cases order with
    | absent =>
      simp only [sortedDefaultKeys, Except.ok.injEq] at ht
      rw [← ht]
    | string s => simp [sortedDefaultKeys] at ht
    | funct compareFn =>
      simp only [sortedDefaultKeys, Except.ok.injEq] at ht
      rw [← ht]
      exact jsSort_perm compareFn defaults.keys
    | list titles =>
      have hto : titles.Nodup := hord titles rfl
      obtain ⟨hmem, hcols⟩ := sortedDefaultKeys_list defaults titles _ hnd ht
      have hsub : ∀ x ∈ titles, x ∈ defaults.keys := fun x hx => (hmem x hx).1
      by_cases hlen : titles.length < defaults.keys.length
      · rw [if_pos hlen] at hcols
        rw [hcols]
        exact append_filter_not_mem_perm defaults.keys titles hnd hto hsub
      · rw [if_neg hlen] at hcols
        rw [hcols]
        exact (List.subperm_of_subset hto hsub).perm_of_length_le (Nat.le_of_not_lt hlen)
  exact ⟨hperm.length_eq, hperm⟩

/-- Witness for C5 amended: defaults `{a: 1, b: 2, c: 3}` with the order `['b']`. -/
theorem Cells_column_completeness_witness :
    (Obj.keys [("a", Val.num 1), ("b", Val.num 2), ("c", Val.num 3)]).Nodup ∧
    ["b"].Nodup ∧
    Cells [] [("a", Val.num 1), ("b", Val.num 2), ("c", Val.num 3)] (Order.list ["b"]) =
      .ok ⟨[⟨"b", Val.num 2⟩, ⟨"a", Val.num 1⟩, ⟨"c", Val.num 3⟩], []⟩ ∧
    (getColumnTitles ⟨[⟨"b", Val.num 2⟩, ⟨"a", Val.num 1⟩, ⟨"c", Val.num 3⟩], []⟩).length =
      (Obj.keys [("a", Val.num 1), ("b", Val.num 2), ("c", Val.num 3)]).length ∧
    (getColumnTitles ⟨[⟨"b", Val.num 2⟩, ⟨"a", Val.num 1⟩, ⟨"c", Val.num 3⟩], []⟩).Perm
      (Obj.keys [("a", Val.num 1), ("b", Val.num 2), ("c", Val.num 3)]) :=
  ⟨by decide, by decide, by decide,
    Cells_column_completeness [] [("a", Val.num 1), ("b", Val.num 2), ("c", Val.num 3)]
      (Order.list ["b"]) ⟨[⟨"b", Val.num 2⟩, ⟨"a", Val.num 1⟩, ⟨"c", Val.num 3⟩], []⟩
      (by decide) (fun titles ht => by cases ht; decide) (by decide)⟩

/-- C6 (explicit-order resolution): when `Cells` returns a matrix for defaults with
distinct keys and a list `order`, the column titles are `order` itself when `order` is
at least as long as the key list, and otherwise `order` followed by the keys of
`defaults` that do not occur in `order`, in their original relative order. -/
theorem Cells_explicit_order (dataList : List Obj) (defaults : Obj) (order : List String)
    (m : Matrix) (hnd : defaults.keys.Nodup)
    (h : Cells dataList defaults (Order.list order) = .ok m) :
    (defaults.keys.length ≤ order.length → getColumnTitles m = order) ∧
    (order.length < defaults.keys.length →
      getColumnTitles m = order ++ defaults.keys.filter (fun key => decide (key ∉ order))) := by
  have ht := Cells_titles dataList defaults (Order.list order) m h
  obtain ⟨_, hcols⟩ := sortedDefaultKeys_list defaults order _ hnd ht
  constructor
  · intro hlen
    rw [hcols, if_neg (Nat.not_lt.mpr hlen)]
  · intro hlen
    rw [hcols, if_pos hlen]

/-- Witness for C6: defaults `{a: 1, b: 2, c: 3}` with order `['b']` resolve to
`['b', 'a', 'c']`. -/
theorem Cells_explicit_order_witness :
    (Obj.keys [("a", Val.num 1), ("b", Val.num 2), ("c", Val.num 3)]).Nodup ∧
    Cells [] [("a", Val.num 1), ("b", Val.num 2), ("c", Val.num 3)] (Order.list ["b"]) =
      .ok ⟨[⟨"b", Val.num 2⟩, ⟨"a", Val.num 1⟩, ⟨"c", Val.num 3⟩], []⟩ ∧
    getColumnTitles ⟨[⟨"b", Val.num 2⟩, ⟨"a", Val.num 1⟩, ⟨"c", Val.num 3⟩], []⟩ =
      ["b", "a", "c"] :=
  ⟨by decide, by decide,
    ((Cells_explicit_order [] [("a", Val.num 1), ("b", Val.num 2), ("c", Val.num 3)] ["b"]
      ⟨[⟨"b", Val.num 2⟩, ⟨"a", Val.num 1⟩, ⟨"c", Val.num 3⟩], []⟩
      (by decide) (by decide)).2 (by decide)).trans (by decide)⟩

/-- C7 (header with no order): when `Cells` returns a matrix for an absent order, the
header row lists the keys of `defaults` in their order, each paired with its
default value. -/
theorem Cells_header_no_order (dataList : List Obj) (defaults : Obj) (m : Matrix)
    (h : Cells dataList defaults Order.absent = .ok m) :
    m.header = defaults.keys.map (fun k => Header.mk k (defaults.get k)) := by
  obtain ⟨cols, hcols, hhead, _⟩ := Cells_ok dataList defaults Order.absent m h
  simp only [sortedDefaultKeys, Except.ok.injEq] at hcols
  rw [hhead, ← hcols]

/-- Witness for C7: the record `{b: 7}` against defaults `{a: 0, b: 1}`. -/
theorem Cells_header_no_order_witness :
    Cells [[("b", Val.num 7)]] [("a", Val.num 0), ("b", Val.num 1)] Order.absent =
      .ok ⟨[⟨"a", Val.num 0⟩, ⟨"b", Val.num 1⟩], [[Val.num 0, Val.num 7]]⟩ ∧
    Matrix.header ⟨[⟨"a", Val.num 0⟩, ⟨"b", Val.num 1⟩], [[Val.num 0, Val.num 7]]⟩ =
      (Obj.keys [("a", Val.num 0), ("b", Val.num 1)]).map
        (fun k => Header.mk k (Obj.get [("a", Val.num 0), ("b", Val.num 1)] k)) :=
  ⟨by decide,
    Cells_header_no_order [[("b", Val.num 7)]] [("a", Val.num 0), ("b", Val.num 1)]
      ⟨[⟨"a", Val.num 0⟩, ⟨"b", Val.num 1⟩], [[Val.num 0, Val.num 7]]⟩ (by decide)⟩

/-! ## Rebuilding with another column order -/

/-- C8 (changeColumnOrdering as rebuild), evaluated where it breaks: `Cells` turns the
record `{a: 1}` with defaults `{a: 0}` into the matrix with the data row `[1]`;
`changeColumnOrdering` of that matrix hands the row to `Cells` as an array, whose only
key is `'0'`, so the value `1` stored under title `a` comes back as the default `0`,
whereas the rebuild from the re-mapped record `{a: 1}` keeps `1`. -/
theorem changeColumnOrdering_loses_values :
    Cells [[("a", Val.num 1)]] [("a", Val.num 0)] Order.absent =
      .ok ⟨[⟨"a", Val.num 0⟩], [[Val.num 1]]⟩ ∧
    changeColumnOrdering ⟨[⟨"a", Val.num 0⟩], [[Val.num 1]]⟩ Order.absent =
      .ok ⟨[⟨"a", Val.num 0⟩], [[Val.num 0]]⟩ ∧
    changeColumnOrderingSpec ⟨[⟨"a", Val.num 0⟩], [[Val.num 1]]⟩ Order.absent =
      .ok ⟨[⟨"a", Val.num 0⟩], [[Val.num 1]]⟩ := by
  decide

/-- C9 (order round-trip): for defaults in `Object.keys` order, when `Cells(records,
defaults)` returns `m` and `Cells(records, defaults, newOrder)` returns, then
`changeColumnOrdering(m, newOrder)` returns too, with the same column titles as
`Cells(records, defaults, newOrder)`. -/
theorem changeColumnOrdering_titles (records : List Obj) (defaults : Obj) (newOrder : Order)
    (m direct : Matrix) (hord : Obj.ordered defaults = true)
    (hm : Cells records defaults Order.absent = .ok m)
    (hdirect : Cells records defaults newOrder = .ok direct) :
    ∃ changed, changeColumnOrdering m newOrder = .ok changed ∧
      getColumnTitles changed = getColumnTitles direct := by
  have hnd := Obj.keys_nodup_of_ordered defaults hord
  have hcols := Cells_titles records defaults newOrder direct hdirect
  have hge := sortedDefaultKeys_length_ge defaults newOrder _ hnd hcols
  obtain ⟨cols0, hcols0, hhead, _⟩ := Cells_ok records defaults Order.absent m hm
  simp only [sortedDefaultKeys, Except.ok.injEq] at hcols0
  subst hcols0
  have hlen := Cells_rows_length records defaults Order.absent m hm
  have hdef : headerDefaults m.header = defaults := by
    rw [hhead]
    exact headerDefaults_of_ordered defaults hord
  unfold changeColumnOrdering
  simp only [hdef]
  apply Cells_of_le _ defaults newOrder _ hcols
  intro data hdata
  obtain ⟨row, hrow, hdata⟩ := List.mem_map.mp hdata
  rw [← hdata, keys_arrayAsObj_length, hlen row hrow, hhead, List.length_map]
  exact hge

/-- Witness for C9: the record `{a: 5}` against defaults `{a: 0, b: 1}`, reordered
with `['b']`. -/
theorem changeColumnOrdering_titles_witness :
    Obj.ordered [("a", Val.num 0), ("b", Val.num 1)] = true ∧
    Cells [[("a", Val.num 5)]] [("a", Val.num 0), ("b", Val.num 1)] Order.absent =
      .ok ⟨[⟨"a", Val.num 0⟩, ⟨"b", Val.num 1⟩], [[Val.num 5, Val.num 1]]⟩ ∧
    Cells [[("a", Val.num 5)]] [("a", Val.num 0), ("b", Val.num 1)] (Order.list ["b"]) =
      .ok ⟨[⟨"b", Val.num 1⟩, ⟨"a", Val.num 0⟩], [[Val.num 1, Val.num 5]]⟩ ∧
    ∃ changed,
      changeColumnOrdering ⟨[⟨"a", Val.num 0⟩, ⟨"b", Val.num 1⟩], [[Val.num 5, Val.num 1]]⟩
        (Order.list ["b"]) = .ok changed ∧
      getColumnTitles changed =
        getColumnTitles ⟨[⟨"b", Val.num 1⟩, ⟨"a", Val.num 0⟩], [[Val.num 1, Val.num 5]]⟩ :=
  ⟨by decide, by decide, by decide,
    changeColumnOrdering_titles [[("a", Val.num 5)]] [("a", Val.num 0), ("b", Val.num 1)]
      (Order.list ["b"]) ⟨[⟨"a", Val.num 0⟩, ⟨"b", Val.num 1⟩], [[Val.num 5, Val.num 1]]⟩
      ⟨[⟨"b", Val.num 1⟩, ⟨"a", Val.num 0⟩], [[Val.num 1, Val.num 5]]⟩
      (by decide) (by decide) (by decide)⟩

/-! ## Sorting by a column -/

/-- C10 (sortColumn accepts every in-bounds column), evaluated where it breaks: the
matrix built from defaults `{a: 0, b: 0}` has two columns, and `sortColumn` with the
in-bounds index `1` throws the out-of-bounds error, because the index is compared
with the length of `cellsMatrix.slice(0, 1)`, which is `1`. -/
theorem sortColumn_rejects_second_column :
    Cells [[("a", Val.num 3), ("b", Val.num 4)]] [("a", Val.num 0), ("b", Val.num 0)]
      Order.absent =
      .ok ⟨[⟨"a", Val.num 0⟩, ⟨"b", Val.num 0⟩], [[Val.num 3, Val.num 4]]⟩ ∧
    sortColumn ⟨[⟨"a", Val.num 0⟩, ⟨"b", Val.num 0⟩], [[Val.num 3, Val.num 4]]⟩ 1
      (some (fun _ _ => 0)) = .error CellsError.colIndexOutOfBounds := by
  decide

theorem sortColumn_some (m : Matrix) (colIndex : Int) (f : Val → Val → Int) :
    sortColumn m colIndex (some f) =
      if 0 < colIndex then .error CellsError.colIndexOutOfBounds
      else .ok ⟨[m.header], jsSort (rowCompare f colIndex) (getData m)⟩ := by
  unfold sortColumn
  simp

theorem sortColumn_ok (m : Matrix) (colIndex : Int) (funct : Option (Val → Val → Int))
    (sorted : SortedMatrix) (h : sortColumn m colIndex funct = .ok sorted) :
    ∃ f, funct = some f ∧ colIndex ≤ 0 ∧ sorted.header = [m.header] ∧
      sorted.content = jsSort (rowCompare f colIndex) (getData m) := by
  cases funct with
  | none => simp [sortColumn] at h
  | some f =>
    rw [sortColumn_some] at h
    by_cases hc : 0 < colIndex
    · simp [hc] at h
    · simp only [hc, if_false, Except.ok.injEq] at h
      refine ⟨f, rfl, by omega, ?_, ?_⟩
      · rw [← h]
      · rw [← h]

/-- Supporting fact for C10 and C14: with a callable comparator, `sortColumn` throws
exactly when `colIndex` is at least `1`, whatever the number of columns. -/
theorem sortColumn_error_iff (m : Matrix) (colIndex : Int) (f : Val → Val → Int) :
    sortColumn m colIndex (some f) = .error CellsError.colIndexOutOfBounds ↔ 1 ≤ colIndex := by
  rw [sortColumn_some]
  by_cases hc : 0 < colIndex
  · simp only [hc, if_true, true_iff]
    omega
  · simp only [hc, if_false]
    constructor
    · intro h
      simp at h
    · intro h
      omega

/-- C11 (sortColumn keeps the header), evaluated where it breaks: for the matrix built from
the record `{a: 3}` and defaults `{a: 0}`, `sortColumn` at column `0` returns an array
whose first element is the one-element array holding the header row, not the header
row, so `getColumnTitles` of the result is `[undefined]` and not `['a']`. -/
theorem sortColumn_wraps_header :
    Cells [[("a", Val.num 3)]] [("a", Val.num 0)] Order.absent =
      .ok ⟨[⟨"a", Val.num 0⟩], [[Val.num 3]]⟩ ∧
    sortColumn ⟨[⟨"a", Val.num 0⟩], [[Val.num 3]]⟩ 0 (some (fun _ _ => 0)) =
      .ok ⟨[[⟨"a", Val.num 0⟩]], [[Val.num 3]]⟩ ∧
    getColumnTitlesSorted ⟨[[⟨"a", Val.num 0⟩]], [[Val.num 3]]⟩ = [Val.undefined] ∧
    getColumnTitles ⟨[⟨"a", Val.num 0⟩], [[Val.num 3]]⟩ = ["a"] := by
  decide

/-- C12 (sortColumn preserves the rows): when `sortColumn` returns, the elements after the
first of the result are a permutation of `getData(matrix)`, for every comparator. -/
theorem sortColumn_rows_perm (m : Matrix) (colIndex : Int)
    (funct : Option (Val → Val → Int)) (sorted : SortedMatrix)
    (h : sortColumn m colIndex funct = .ok sorted) :
    sorted.content.Perm (getData m) := by
  obtain ⟨f, _, _, _, hcontent⟩ := sortColumn_ok m colIndex funct sorted h
  rw [hcontent]
  exact jsSort_perm _ _

/-- Witness for C12: three rows sorted with the comparator that always returns `0`. -/
theorem sortColumn_rows_perm_witness :
    sortColumn ⟨[⟨"a", Val.num 0⟩], [[Val.num 3], [Val.num 1], [Val.num 2]]⟩ 0
      (some (fun _ _ => 0)) =
      .ok ⟨[[⟨"a", Val.num 0⟩]], [[Val.num 3], [Val.num 1], [Val.num 2]]⟩ ∧
    (SortedMatrix.content ⟨[[⟨"a", Val.num 0⟩]], [[Val.num 3], [Val.num 1], [Val.num 2]]⟩).Perm
      (getData ⟨[⟨"a", Val.num 0⟩], [[Val.num 3], [Val.num 1], [Val.num 2]]⟩) :=
  ⟨by decide,
    sortColumn_rows_perm ⟨[⟨"a", Val.num 0⟩], [[Val.num 3], [Val.num 1], [Val.num 2]]⟩ 0
      (some (fun _ _ => 0))
      ⟨[[⟨"a", Val.num 0⟩]], [[Val.num 3], [Val.num 1], [Val.num 2]]⟩ (by decide)⟩

/-- C13 (sortColumn sorts by the column), evaluated where it breaks: the comparator
below is a total preorder on the values `1` and `NaN` of the column and puts `NaN`
first, so `comparator(1, NaN)` is `1`.  Sorting the pair gives `[NaN, 1]` for either
order of the two rows, neither `sorted[0] === lhsVal` nor `sorted[0] === rhsVal` can
hold of `NaN`, the row comparator of lines 136-147 answers `0` both ways, and
`sortColumn` returns the rows `[1]`, `[NaN]` in their given order. -/
theorem sortColumn_nan_not_moved :
    Cells [[("a", Val.num 1)], [("a", Val.nan)]] [("a", Val.num 0)] Order.absent =
      .ok ⟨[⟨"a", Val.num 0⟩], [[Val.num 1], [Val.nan]]⟩ ∧
    (∀ x ∈ [Val.num 1, Val.nan], ∀ y ∈ [Val.num 1, Val.nan],
      (fun (v w : Val) => (if v = Val.nan then (0 : Int) else 1) -
        (if w = Val.nan then 0 else 1)) x y ≤ 0 ∨
      (fun (v w : Val) => (if v = Val.nan then (0 : Int) else 1) -
        (if w = Val.nan then 0 else 1)) y x ≤ 0) ∧
    (∀ x ∈ [Val.num 1, Val.nan], ∀ y ∈ [Val.num 1, Val.nan], ∀ z ∈ [Val.num 1, Val.nan],
      (fun (v w : Val) => (if v = Val.nan then (0 : Int) else 1) -
        (if w = Val.nan then 0 else 1)) x y ≤ 0 →
      (fun (v w : Val) => (if v = Val.nan then (0 : Int) else 1) -
        (if w = Val.nan then 0 else 1)) y z ≤ 0 →
      (fun (v w : Val) => (if v = Val.nan then (0 : Int) else 1) -
        (if w = Val.nan then 0 else 1)) x z ≤ 0) ∧
    rowCompare (fun v w => (if v = Val.nan then (0 : Int) else 1) -
        (if w = Val.nan then 0 else 1)) 0 [Val.num 1] [Val.nan] = 0 ∧
    rowCompare (fun v w => (if v = Val.nan then (0 : Int) else 1) -
        (if w = Val.nan then 0 else 1)) 0 [Val.nan] [Val.num 1] = 0 ∧
    sortColumn ⟨[⟨"a", Val.num 0⟩], [[Val.num 1], [Val.nan]]⟩ 0
      (some (fun v w => (if v = Val.nan then (0 : Int) else 1) -
        (if w = Val.nan then 0 else 1))) =
      .ok ⟨[[⟨"a", Val.num 0⟩]], [[Val.num 1], [Val.nan]]⟩ ∧
    (fun (v w : Val) => (if v = Val.nan then (0 : Int) else 1) -
      (if w = Val.nan then 0 else 1)) (elemAt [Val.num 1] 0) (elemAt [Val.nan] 0) = 1 := by
  refine ⟨by decide, by decide, by decide, by decide, by decide, by decide, by decide⟩

/-- Supporting fact for C13: a column that holds `undefined` is not sorted by the
comparator either.  The comparator below is a total preorder on `undefined` and `3`
that puts `undefined` first, and `sortColumn` returns the row holding `3` before the
row holding `undefined`: sorting the pair `[lhsVal, rhsVal]` moves `undefined` last
without consulting the comparator. -/
theorem sortColumn_undefined_goes_last :
    Cells [[("a", Val.undefined)], [("a", Val.num 3)]] [("a", Val.num 0)] Order.absent =
      .ok ⟨[⟨"a", Val.num 0⟩], [[Val.undefined], [Val.num 3]]⟩ ∧
    rowCompare (fun v w => (if v = Val.undefined then (0 : Int) else 1) -
        (if w = Val.undefined then 0 else 1)) 0 [Val.undefined] [Val.num 3] = 1 ∧
    rowCompare (fun v w => (if v = Val.undefined then (0 : Int) else 1) -
        (if w = Val.undefined then 0 else 1)) 0 [Val.num 3] [Val.undefined] = -1 ∧
    sortColumn ⟨[⟨"a", Val.num 0⟩], [[Val.undefined], [Val.num 3]]⟩ 0
      (some (fun v w => (if v = Val.undefined then (0 : Int) else 1) -
        (if w = Val.undefined then 0 else 1))) =
      .ok ⟨[[⟨"a", Val.num 0⟩]], [[Val.num 3], [Val.undefined]]⟩ ∧
    (fun (v w : Val) => (if v = Val.undefined then (0 : Int) else 1) -
      (if w = Val.undefined then 0 else 1)) (elemAt [Val.num 3] 0)
        (elemAt [Val.undefined] 0) = 1 := by
  refine ⟨by decide, by decide, by decide, by decide, by decide⟩

/-- Supporting fact for C13: the two zeros tie under `===`, so for a comparator that
tells them apart the row comparator of lines 136-147 answers `-1` both ways and
gives the sort no order to follow. -/
theorem rowCompare_zeros_both_first :
    rowCompare (fun v w => (if v = Val.negZero then (0 : Int) else 1) -
        (if w = Val.negZero then 0 else 1)) 0 [Val.negZero] [Val.num 0] = -1 ∧
    rowCompare (fun v w => (if v = Val.negZero then (0 : Int) else 1) -
        (if w = Val.negZero then 0 else 1)) 0 [Val.num 0] [Val.negZero] = -1 := by
  refine ⟨by decide, by decide⟩

/-- C14 (sortColumn index bounds), evaluated where it breaks: the matrix built from the
empty defaults `{}` has a header row of `0` columns, and `sortColumn` with
`colIndex = 0`, which is not below the number of columns, returns instead of
throwing. -/
theorem sortColumn_accepts_zero_without_columns :
    Cells [] [] Order.absent = .ok ⟨[], []⟩ ∧
    (Matrix.header ⟨[], []⟩).length = 0 ∧
    sortColumn ⟨[], []⟩ 0 (some (fun _ _ => 0)) = .ok ⟨[[]], []⟩ := by
  decide

/-! ## Errors of `Cells` -/

theorem orderForEach_error (defaultKeys order acc : List String)
    (h : ∃ x ∈ order, notInList defaultKeys x = true) :
    ∃ pre t post, order = pre ++ t :: post ∧ (∀ x ∈ pre, notInList defaultKeys x = false) ∧
      notInList defaultKeys t = true ∧
      orderForEach defaultKeys order acc = .error (.titleNotInDefaults t) := by
  induction order generalizing acc with
  | nil =>
    obtain ⟨x, hx, _⟩ := h
    simp at hx
  | cons columnTitle rest ih =>
    by_cases hn : notInList defaultKeys columnTitle = true
    · refine ⟨[], columnTitle, rest, rfl, by simp, hn, ?_⟩
      unfold orderForEach
      simp [hn]
    · have hrest : ∃ x ∈ rest, notInList defaultKeys x = true := by
        obtain ⟨x, hx, hxn⟩ := h
        rcases List.mem_cons.mp hx with hx | hx
        · rw [hx] at hxn
          exact absurd hxn hn
        · exact ⟨x, hx, hxn⟩
      obtain ⟨pre, t, post, hsplit, hpre, ht, herr⟩ := ih (acc ++ [columnTitle]) hrest
      refine ⟨columnTitle :: pre, t, post, by simp [hsplit], ?_, ht, ?_⟩
      · intro x hx
        rcases List.mem_cons.mp hx with hx | hx
        · rw [hx]
          simpa using hn
        · exact hpre x hx
      · unfold orderForEach
        simp only [hn]
        exact herr

/-- Supporting fact for C15: a list `order` with an entry that is not a key of `defaults`
makes `Cells` fail, and the title named by the error is the first entry of `order`
that is not a key of `defaults` or is the empty string. -/
theorem Cells_unknown_title_fails (dataList : List Obj) (defaults : Obj)
    (order : List String) (h : ∃ x ∈ order, x ∉ defaults.keys) :
    ∃ pre t post, order = pre ++ t :: post ∧
      (∀ x ∈ pre, x ∈ defaults.keys ∧ x ≠ "") ∧ (t ∉ defaults.keys ∨ t = "") ∧
      Cells dataList defaults (Order.list order) = .error (.titleNotInDefaults t) := by
  have h2 : ∃ x ∈ order, notInList defaults.keys x = true := by
    obtain ⟨x, hx, hxn⟩ := h
    exact ⟨x, hx, notInList_of_not_mem _ _ hxn⟩
  obtain ⟨pre, t, post, hsplit, hpre, ht, herr⟩ := orderForEach_error defaults.keys order [] h2
  refine ⟨pre, t, post, hsplit, fun x hx => (notInList_eq_false_iff _ _).mp (hpre x hx),
    (notInList_eq_true_iff _ _).mp ht, ?_⟩
  unfold Cells sortedDefaultKeys
  simp only [herr]

/-- C15 (unknown title in explicit order), evaluated where it breaks: with defaults
`{'': 1}` and order `['', 'c']` the first entry that is not a key of `defaults` is
`'c'`, and the error thrown by `Cells` names `''`, which is a key of `defaults`. -/
theorem Cells_error_names_empty_title :
    "" ∈ Obj.keys [("", Val.num 1)] ∧ "c" ∉ Obj.keys [("", Val.num 1)] ∧
    Cells [] [("", Val.num 1)] (Order.list ["", "c"]) =
      .error (CellsError.titleNotInDefaults "") := by
  decide

theorem forEachData_error_first (defaults : Obj) (cols : List String) (pre : List Obj)
    (data : Obj) (post : List Obj) (acc : List (List Val))
    (hpre : ∀ d ∈ pre, d.keys.length ≤ cols.length) (hdata : cols.length < data.keys.length) :
    forEachData defaults cols (pre ++ data :: post) acc =
      .error (.extraKeys (data.keys.filter (notInList cols))) := by
  induction pre generalizing acc with
  | nil =>
    rw [List.nil_append]
    unfold forEachData buildRow
    simp [hdata, elementsNotInRefList_eq_filter]
  | cons d pre ih =>
    obtain ⟨row, hrow⟩ := buildRow_of_le defaults cols d (hpre d (List.mem_cons_self _ _))
    rw [List.cons_append]
    unfold forEachData
    simp only [hrow]
    exact ih (acc ++ [row]) (fun x hx => hpre x (List.mem_cons_of_mem _ hx))

theorem exists_first_split {α : Type} (P : α → Prop) [DecidablePred P] (l : List α)
    (h : ∃ x ∈ l, P x) :
    ∃ pre x post, l = pre ++ x :: post ∧ (∀ y ∈ pre, ¬ P y) ∧ P x := by
  induction l with
  | nil =>
    obtain ⟨x, hx, _⟩ := h
    simp at hx
  | cons a l ih =>
    by_cases ha : P a
    · exact ⟨[], a, l, rfl, by simp, ha⟩
    · have hrest : ∃ x ∈ l, P x := by
        obtain ⟨x, hx, hxp⟩ := h
        rcases List.mem_cons.mp hx with hx | hx
        · rw [hx] at hxp
          exact absurd hxp ha
        · exact ⟨x, hx, hxp⟩
      obtain ⟨pre, x, post, hsplit, hpre, hx⟩ := ih hrest
      refine ⟨a :: pre, x, post, by simp [hsplit], ?_, hx⟩
      intro y hy
      rcases List.mem_cons.mp hy with hy | hy
      · rw [hy]
        exact ha
      · exact hpre y hy

/-- Supporting fact for C16 and C17: once the column order is resolved, the first record
with more keys than resolved columns makes `Cells` fail, and the error lists the keys
of that record for which `notInList` answers true: those that are no resolved
column, and the empty string. -/
theorem Cells_extra_keys_error (dataList : List Obj) (defaults : Obj) (order : Order)
    (cols : List String) (hcols : sortedDefaultKeys defaults order = .ok cols)
    (h : ∃ data ∈ dataList, cols.length < data.keys.length) :
    ∃ pre data post, dataList = pre ++ data :: post ∧
      (∀ d ∈ pre, d.keys.length ≤ cols.length) ∧ cols.length < data.keys.length ∧
      Cells dataList defaults order =
        .error (.extraKeys (data.keys.filter (fun k => decide (k ∉ cols ∨ k = "")))) := by
  obtain ⟨pre, data, post, hsplit, hpre, hdata⟩ :=
    exists_first_split (fun d : Obj => cols.length < d.keys.length) dataList h
  refine ⟨pre, data, post, hsplit, fun d hd => Nat.le_of_not_lt (hpre d hd), hdata, ?_⟩
  have hfilter : data.keys.filter (fun k => decide (k ∉ cols ∨ k = "")) =
      data.keys.filter (notInList cols) := by
    apply List.filter_congr
    intro k _
    by_cases hn : notInList cols k = true
    · rw [hn]
      exact decide_eq_true ((notInList_eq_true_iff _ _).mp hn)
    · have hn2 : notInList cols k = false := by simpa using hn
      rw [hn2]
      apply decide_eq_false
      intro hor
      exact hn ((notInList_eq_true_iff _ _).mpr hor)
  unfold Cells
  simp only [hcols]
  rw [hsplit, forEachData_error_first defaults cols pre data post []
    (fun d hd => Nat.le_of_not_lt (hpre d hd)) hdata, hfilter]

/-- C16 (extra-key rejection), evaluated where it breaks: the record `{'': 1, a: 2}` has
more keys than the one resolved column `''` of defaults `{'': 0}`; its only key that
is not a resolved column is `a`, and the error thrown by `Cells` lists `''` and
`a`. -/
theorem Cells_extra_keys_lists_empty_key :
    sortedDefaultKeys [("", Val.num 0)] Order.absent = .ok [""] ∧
    (Obj.keys [("", Val.num 1), ("a", Val.num 2)]).filter (fun k => decide (k ∉ [""])) = ["a"] ∧
    Cells [[("", Val.num 1), ("a", Val.num 2)]] [("", Val.num 0)] Order.absent =
      .error (CellsError.extraKeys ["", "a"]) := by
  decide

/-- C17 as stated fails: the record `{c: 1}` has the key `c`, which is not a key of
defaults `{a: 0, b: 0}`, and `Cells` returns a matrix, with the row `[0, 0]`. -/
theorem Cells_drops_unknown_key :
    "c" ∈ Obj.keys [("c", Val.num 1)] ∧
    "c" ∉ Obj.keys [("a", Val.num 0), ("b", Val.num 0)] ∧
    Cells [[("c", Val.num 1)]] [("a", Val.num 0), ("b", Val.num 0)] Order.absent =
      .ok ⟨[⟨"a", Val.num 0⟩, ⟨"b", Val.num 0⟩], [[Val.num 0, Val.num 0]]⟩ := by
  decide

/-- C17 amended (unknown record key fails construction): if some record of `dataList` has
a key that is not a key of `defaults` and has strictly more keys than there are
resolved columns, then `Cells` fails with an error instead of returning a matrix. -/
theorem Cells_fails_on_excess_keys (dataList : List Obj) (defaults : Obj) (order : Order)
    (data : Obj) (hdata : data ∈ dataList) (k : String) (_hk : k ∈ data.keys)
    (_hk2 : k ∉ defaults.keys)
    (hlen : ∀ cols, sortedDefaultKeys defaults order = .ok cols →
      cols.length < data.keys.length) :
    ∃ e, Cells dataList defaults order = .error e := by
  cases hcols : sortedDefaultKeys defaults order with
  | error e =>
    refine ⟨e, ?_⟩
    unfold Cells
    simp only [hcols]
  | ok cols =>
    obtain ⟨_, _, _, _, _, _, herr⟩ := Cells_extra_keys_error dataList defaults order cols hcols
      ⟨data, hdata, hlen cols hcols⟩
    exact ⟨_, herr⟩

/-- Witness for C17 amended: the record `{a: 1, b: 2, c: 3}` against defaults
`{a: 0, b: 0}`. -/
theorem Cells_fails_on_excess_keys_witness :
    "c" ∈ Obj.keys [("a", Val.num 1), ("b", Val.num 2), ("c", Val.num 3)] ∧
    "c" ∉ Obj.keys [("a", Val.num 0), ("b", Val.num 0)] ∧
    ∃ e, Cells [[("a", Val.num 1), ("b", Val.num 2), ("c", Val.num 3)]]
      [("a", Val.num 0), ("b", Val.num 0)] Order.absent = .error e :=
  ⟨by decide, by decide,
    Cells_fails_on_excess_keys [[("a", Val.num 1), ("b", Val.num 2), ("c", Val.num 3)]]
      [("a", Val.num 0), ("b", Val.num 0)] Order.absent
      [("a", Val.num 1), ("b", Val.num 2), ("c", Val.num 3)] (by decide) "c" (by decide)
      (by decide) (fun cols hcols => by
        simp only [sortedDefaultKeys, Except.ok.injEq] at hcols
        rw [← hcols]
        decide)⟩

/-- C18 (bare-string rejection comes first): for every `dataList` and `defaults`, `Cells`
with a string `order` fails with the order-is-a-string error, whatever the string and
whatever the records. -/
theorem Cells_string_order (dataList : List Obj) (defaults : Obj) (s : String) :
    Cells dataList defaults (Order.string s) = .error CellsError.orderIsString := by
  unfold Cells
  simp [sortedDefaultKeys]

/-! ## The caller's records after `Cells` -/

theorem buildRowRecord_fst (defaults : Obj) (cols : List String) (data : Obj) :
    (buildRowRecord defaults cols data).1 = buildRow defaults cols data := by
  unfold buildRowRecord buildRow
  by_cases hlen : data.keys.length > cols.length
  · simp [hlen]
  · simp [hlen]

/-- Supporting fact for C19: a record that lacks one of the resolved columns is copied
before anything is written, so the caller's object is left as it was. -/
theorem buildRowRecord_snd_of_missing (defaults : Obj) (cols : List String) (data : Obj)
    (k : String) (hk : k ∈ cols) (hmiss : k ∉ data.keys) :
    (buildRowRecord defaults cols data).2 = data := by
  unfold buildRowRecord
  by_cases hlen : data.keys.length > cols.length
  · simp [hlen]
  · have hmem : k ∈ elementsNotInRefList data.keys cols := by
      rw [elementsNotInRefList_eq_filter, List.mem_filter]
      exact ⟨hk, notInList_of_not_mem _ _ hmiss⟩
    have hne : (elementsNotInRefList data.keys cols).isEmpty = false := by
      cases hl : elementsNotInRefList data.keys cols with
      | nil => rw [hl] at hmem; simp at hmem
      | cons _ _ => rfl
    simp [hlen, hne]

/-- C19 (Cells never mutates caller records), evaluated where it breaks: the record
`{a: null}` has every column of defaults `{a: 0}`, so `data` is never rebound to a
copy, and the assignment `data[key] = defaults[key]` of line 96 writes the default
into the caller's record, which is `{a: 0}` after `Cells` has returned. -/
theorem Cells_writes_default_into_record :
    Cells [[("a", Val.null)]] [("a", Val.num 0)] Order.absent =
      .ok ⟨[⟨"a", Val.num 0⟩], [[Val.num 0]]⟩ ∧
    recordsAfterCells [[("a", Val.null)]] [("a", Val.num 0)] Order.absent =
      [[("a", Val.num 0)]] ∧
    recordsAfterCells [[("a", Val.null)]] [("a", Val.num 0)] Order.absent ≠
      [[("a", Val.null)]] := by
  decide

/-! ## Explicit order without repeated entries -/

/-- C20 (permutation for duplicate-free explicit order): for defaults whose keys are
distinct and non-empty and a list `order` without repeated entry whose entries are all
keys of `defaults`, `Cells` resolves a column order that is a permutation of the keys of
`defaults`, of the same length; it is `order` itself when `order` is as long as the
key list, and it is the list of titles of every matrix `Cells` returns. -/
theorem Cells_order_perm_of_nodup (defaults : Obj) (order : List String)
    (hnd : defaults.keys.Nodup) (hne : ∀ k ∈ defaults.keys, k ≠ "") (ho : order.Nodup)
    (hsub : ∀ x ∈ order, x ∈ defaults.keys) :
    ∃ cols, sortedDefaultKeys defaults (Order.list order) = .ok cols ∧
      cols.length = defaults.keys.length ∧ cols.Perm defaults.keys ∧
      (order.length = defaults.keys.length → cols = order) ∧
      ∀ dataList m, Cells dataList defaults (Order.list order) = .ok m →
        getColumnTitles m = cols := by
  have hall : ∀ x ∈ order, notInList defaults.keys x = false :=
    fun x hx => (notInList_eq_false_iff _ _).mpr ⟨hsub x hx, hne x (hsub x hx)⟩
  have hfor := orderForEach_of_all defaults.keys order [] hall
  rw [List.nil_append] at hfor
  have hres : ∃ cols, sortedDefaultKeys defaults (Order.list order) = .ok cols := by
    unfold sortedDefaultKeys
    simp only [hfor]
    by_cases hlen : order.length < defaults.keys.length
    · exact ⟨_, if_pos hlen⟩
    · exact ⟨_, if_neg hlen⟩
  obtain ⟨cols, hcols⟩ := hres
  obtain ⟨_, hform⟩ := sortedDefaultKeys_list defaults order cols hnd hcols
  have hperm : cols.Perm defaults.keys := by
    by_cases hlen : order.length < defaults.keys.length
    · rw [if_pos hlen] at hform
      rw [hform]
      exact append_filter_not_mem_perm defaults.keys order hnd ho hsub
    · rw [if_neg hlen] at hform
      rw [hform]
      exact (List.subperm_of_subset ho hsub).perm_of_length_le (Nat.le_of_not_lt hlen)
  refine ⟨cols, hcols, hperm.length_eq, hperm, ?_, ?_⟩
  · intro hlen
    rw [hform, if_neg (by omega)]
  · intro dataList m hm
    have ht := Cells_titles dataList defaults (Order.list order) m hm
    rw [hcols, Except.ok.injEq] at ht
    exact ht.symm

/-- Witness for C20: defaults `{a: 1, b: 2}` with the order `['b', 'a']`, as long as the
key list. -/
theorem Cells_order_perm_of_nodup_witness :
    (Obj.keys [("a", Val.num 1), ("b", Val.num 2)]).Nodup ∧
    (∀ k ∈ Obj.keys [("a", Val.num 1), ("b", Val.num 2)], k ≠ "") ∧
    ["b", "a"].Nodup ∧
    (∀ x ∈ ["b", "a"], x ∈ Obj.keys [("a", Val.num 1), ("b", Val.num 2)]) ∧
    sortedDefaultKeys [("a", Val.num 1), ("b", Val.num 2)] (Order.list ["b", "a"]) =
      .ok ["b", "a"] ∧
    ∃ cols, sortedDefaultKeys [("a", Val.num 1), ("b", Val.num 2)] (Order.list ["b", "a"]) =
        .ok cols ∧
      cols.length = (Obj.keys [("a", Val.num 1), ("b", Val.num 2)]).length ∧
      cols.Perm (Obj.keys [("a", Val.num 1), ("b", Val.num 2)]) ∧
      (["b", "a"].length = (Obj.keys [("a", Val.num 1), ("b", Val.num 2)]).length →
        cols = ["b", "a"]) ∧
      ∀ dataList m,
        Cells dataList [("a", Val.num 1), ("b", Val.num 2)] (Order.list ["b", "a"]) = .ok m →
        getColumnTitles m = cols :=
  ⟨by decide, by decide, by decide, by decide, by decide,
    Cells_order_perm_of_nodup [("a", Val.num 1), ("b", Val.num 2)] ["b", "a"]
      (by decide) (by decide) (by decide) (by decide)⟩

end CellsJS
